import Mathlib

/-!
Verification of the upm install/uninstall lifecycle engine
(`upython/upm/install.py`).

The Python module is shallowly embedded as follows:

* pure helpers (`_match_any_pattern`, `_check_include_file`,
  `walk_package_files`, path joining, the tracking-list serialization)
  become pure Lean functions translated line by line;
* filesystem effects become an explicit event trace (`Ev`), and an
  interpretation `applyEvs` of a trace on a set of existing file paths;
* external collaborators (manifest parsing, `session.load_package`,
  the registry, pip, `tarfile` extraction, `upython.main.run`,
  `os.remove` outcomes, `os.walk` listings, `tempfile` names) become
  oracle functions gathered in an `Env` record, so every control-flow
  decision of the Python code is driven by the same data it reads there;
* each `Installer` method returns its boolean result (or a propagating
  exception, as `Except`) together with the event trace it produced.
-/

/-- Model of `os.path.join a b` for the POSIX-style paths used throughout the module. -/
def pjoin (a b : String) : String := a ++ "/" ++ b

/-- Model of `os.path.dirname`: everything before the final path separator
(`dirname "a"` is `""`, as in Python). -/
def dirname (p : String) : String :=
  String.intercalate "/" ((p.splitOn "/").dropLast)

/-- Character-list version of "is a leading segment of", used to express
which paths live under a directory removed by `shutil.rmtree`. -/
def charsStartWith : List Char → List Char → Bool
  | [], _ => true
  | _ :: _, [] => false
  | a :: as, b :: bs => a == b && charsStartWith as bs

/-- Predicate for `shutil.rmtree d`: it removes the path `d` itself and every path below it:
those equal to `d` or starting with `d ++ "/"`. -/
def isUnder (d p : String) : Bool :=
  d == p || charsStartWith (d ++ "/").data p.data

/-- All suffixes of a character list, longest first. -/
def charSuffixes : List Char → List (List Char)
  | [] => [[]]
  | c :: cs => (c :: cs) :: charSuffixes cs

/-- Shell-glob matcher modelling Python's `fnmatch.fnmatch` for the
pattern forms the module uses: `*` matches any (possibly empty) sequence
of characters including separators, `?` matches exactly one character,
everything else matches literally. -/
def globMatch : List Char → List Char → Bool
  | [], s => s.isEmpty
  | '*' :: ps, s => (charSuffixes s).any (globMatch ps)
  | '?' :: ps, s =>
    match s with
    | [] => false
    | _ :: cs => globMatch ps cs
  | p :: ps, s =>
    match s with
    | [] => false
    | c :: cs => p == c && globMatch ps cs

/-- Model of `fnmatch.fnmatch filename pattern` on POSIX-style relative paths. -/
def fnmatch (filename pattern : String) : Bool :=
  globMatch pattern.data filename.data

/-- The list `default_exclude_patterns` from `install.py`. -/
def default_exclude_patterns : List String :=
  [".DS_Store", ".svn/*", ".git/*", "upython_packages/*", "*.pyc", "*.pyo", "dist/*"]

/-- Translation of `_match_any_pattern(filename, patterns)`. -/
def _match_any_pattern (filename : String) (patterns : List String) : Bool :=
  patterns.any (fun x => fnmatch filename x)

/-- Translation of `_check_include_file(filename, include_patterns, exclude_patterns)`. -/
def _check_include_file (filename : String)
    (include_patterns exclude_patterns : List String) : Bool :=
  if _match_any_pattern filename exclude_patterns then false
  else if include_patterns.isEmpty then true
  else _match_any_pattern filename include_patterns

/-- The package manifest fields the engine reads (`PackageManifest` is an
external collaborator; `dist_include_files` is `manifest.dist.get('include_files', [])`,
with the absent-key default already folded in, and `directory` is the
manifest's source directory). Mappings are association lists in
declaration (insertion) order, as Python dict iteration yields them. -/
structure PackageManifest where
  name : String
  version : String
  dependencies : List (String × String)
  python_dependencies : List (String × String)
  scripts : List (String × String)
  bin : List (String × String)
  postinstall : Option String
  dist_include_files : List String
  directory : String
deriving DecidableEq, Repr

/-- The identifier `manifest.identifier`. -/
def PackageManifest.identifier (m : PackageManifest) : String :=
  m.name ++ "@" ++ m.version

/-- Translation of `walk_package_files(manifest)`: `files` is the list of relative paths
that `os.walk` yields below `manifest.directory` (the walk itself is the
filesystem oracle); the function keeps a relative path when it equals
`package.json` or passes `_check_include_file`, and yields
`(abspath, relpath)` pairs.  Note the source builds `expat` from
`include_files` again (not from any exclude list) and appends the
default exclude patterns to it. -/
def walk_package_files (manifest : PackageManifest) (files : List String) :
    List (String × String) :=
  let inpat := manifest.dist_include_files
  let expat := manifest.dist_include_files ++ default_exclude_patterns
  (files.filter (fun rel =>
      rel == "package.json" || _check_include_file rel inpat expat)).map
    (fun rel => (pjoin manifest.directory rel, rel))

/-- Modelled from the spec (section 4.1), for comparison with
`walk_package_files`: "A file is selected if: its relative path equals the
manifest's own declared filename (always force-included), OR it does not
match any exclude pattern AND (no include patterns are declared, OR it
matches at least one include pattern)", where the exclude patterns are
"the default exclusions [...] in addition to any exclude patterns declared
in the manifest" (`exclude_declared`; the code never reads such a field). -/
def spec_file_selected (manifest : PackageManifest)
    (exclude_declared : List String) (rel : String) : Bool :=
  rel == "package.json" ||
    (!_match_any_pattern rel (exclude_declared ++ default_exclude_patterns) &&
      (manifest.dist_include_files.isEmpty ||
        _match_any_pattern rel manifest.dist_include_files))

/-- Filesystem events emitted by the engine.  `copy` is `shutil.copyfile`,
`writeScript` is a file written by `distlib`'s `ScriptMaker`,
`writeTrackingList` is the `.upm-installed-files` write (with its full
content), `remove`/`removeFailed` are the two outcomes of `os.remove`,
`rmtree` is `shutil.rmtree`, `extractArchive` records `tar.extractall`
together with the relative paths it materialized, `mkstemp` is the
creation of a named temporary file, and `depInstall` marks a recursive
`install_from_registry` call made for a queued dependency. -/
inductive Ev where
  | makedirs (dir : String)
  | copy (src dst : String)
  | writeScript (path : String)
  | writeTrackingList (path content : String)
  | remove (path : String)
  | removeFailed (path : String)
  | rmtree (dir : String)
  | mkdtemp (dir : String)
  | extractArchive (archive dir : String) (files : List String)
  | mkstemp (path : String)
  | depInstall (name selector : String)
deriving DecidableEq, Repr

/-- File paths an event creates (directories are not tracked in the
file-set model; extraction materializes its files below the scratch
directory). -/
def Ev.inserted : Ev → List String
  | .copy _ dst => [dst]
  | .writeScript p => [p]
  | .writeTrackingList p _ => [p]
  | .mkstemp p => [p]
  | .extractArchive _ d fs => fs.map (fun rel => pjoin d rel)
  | _ => []

/-- The destination paths of the file-writes an install performs for a
package: copied file destinations and generated launcher paths (the
tracking list itself is excluded, exactly as in the source's
`installed_files` accumulator). -/
def Ev.writePath : Ev → Option String
  | .copy _ dst => some dst
  | .writeScript p => some p
  | _ => none

/-- All copied-file destinations and launcher paths in a trace, in order. -/
def writtenPaths (evs : List Ev) : List String :=
  evs.filterMap Ev.writePath

/-- All paths a trace creates, in order. -/
def insertedPaths (evs : List Ev) : List String :=
  evs.flatMap Ev.inserted

/-- Returns `true` when an event cannot delete a file. -/
def Ev.keepsFiles : Ev → Bool
  | .remove _ => false
  | .rmtree _ => false
  | _ => true

/-- Effect of one event on the set of existing file paths. -/
def applyEv (fs : Finset String) : Ev → Finset String
  | .copy _ dst => insert dst fs
  | .writeScript p => insert p fs
  | .writeTrackingList p _ => insert p fs
  | .mkstemp p => insert p fs
  | .extractArchive _ d files => fs ∪ (files.map (fun rel => pjoin d rel)).toFinset
  | .remove p => fs.erase p
  | .rmtree d => fs.filter (fun p => isUnder d p = false)
  | _ => fs

/-- Effect of a trace on the set of existing file paths. -/
def applyEvs (fs : Finset String) (evs : List Ev) : Finset String :=
  evs.foldl applyEv fs

/-- The directory record resolved at `Installer.__init__` (`self.dirs`):
`local_dir` is `none` for global installs. -/
structure Dirs where
  packages : String
  bin : String
  python_modules : String
  local_dir : Option String
deriving DecidableEq, Repr

/-- The version info the registry resolves a (name, selector) pair to. -/
structure RegInfo where
  name : String
  version : String
deriving DecidableEq, Repr

/-- The installer's configuration plus oracles for every external
collaborator it consults.  `parse` is `PackageManifest.parse` (its error
covers both `NotAPackageDirectory` and `InvalidPackageManifest`);
`loadPackage` is whether `session.load_package(name, selector)` succeeds
(i.e. a satisfying version is already loadable); `registryInstall` is the
result of the recursive `install_from_registry` call made for a queued
dependency; `pipInstall` is the exit code of the delegated pip call;
`walkFiles` lists the relative paths `os.walk` yields below a directory;
`exists_` is `os.path.exists`; `readFile` returns the content of a file
or `none` when `os.path.isfile` is false; `removeResult` is the outcome
of `os.remove` on a path; `runHook` is `upython.main.run` on the
postinstall script; `regFind`/`regDownloadName` are the registry's
`find_package` and the filename derived from its `download` response;
`mkdtempName`/`mkstempName` are the fresh names `tempfile` produces;
`extract` is `tar.extractall`, returning the relative paths extracted;
`downloadTo` is `download_to_fileobj`; `fs0` is the set of file paths
existing before the call under scrutiny. -/
structure Env where
  upgrade : Bool
  global_ : Bool
  dirs : Dirs
  parse : String → Except String PackageManifest
  loadPackage : String → Option String → Bool
  registryInstall : String → String → Bool
  pipInstall : String → List String → Int
  walkFiles : String → List String
  exists_ : String → Bool
  readFile : String → Option String
  removeResult : String → Except String Unit
  runHook : String → Except String Unit
  regFind : String → String → Except String RegInfo
  regDownloadName : String → String → String
  mkdtempName : String → String
  mkstempName : String → String
  extract : String → String → Except String (List String)
  downloadTo : String → Except String Unit
  fs0 : Finset String

/-- Translation of `_make_python_script(script_name, code, directory)`: `ScriptMaker`
with `clobber`, a single empty variant and `set_mode` writes one
executable file named `script_name` into `directory` and returns the
list of paths written. -/
def _make_python_script (script_name : String) (code : String)
    (directory : String) : List String × List Ev :=
  let path := pjoin directory script_name
  let _ := code
  ([path], [Ev.writeScript path])

/-- Approximation of `shlex.split` (whitespace splitting; the result only
feeds the launcher's embedded command string). -/
def shlexSplit (command : String) : List String :=
  (command.splitOn " ").filter (fun s => s ≠ "")

/-- Translation of `_make_script(script_name, args, directory)`. -/
def _make_script (script_name : String) (args : List String)
    (directory : String) : List String × List Ev :=
  _make_python_script script_name
    ("import subprocess as s, sys;sys.exit(s.call(" ++ toString args ++ "))")
    directory

/-- Translation of `_make_bin(script_name, filename, local_dir, directory)`. -/
def _make_bin (script_name : String) (filename : String)
    (local_dir : Option String) (directory : String) : List String × List Ev :=
  _make_python_script script_name
    ("import sys, upython.main;upython.main.run(" ++ filename ++ ", local_dir="
      ++ toString local_dir ++ ")")
    directory

/-- Python's iteration over the lines of a file, each passed through
`line.rstrip(chr 10)` — the accumulator holds the current line's
characters in reverse. -/
def pyLinesAux (acc : List Char) : List Char → List String
  | [] => if acc.isEmpty then [] else [String.mk acc.reverse]
  | c :: cs =>
    if c = '\n' then String.mk acc.reverse :: pyLinesAux [] cs
    else pyLinesAux (c :: acc) cs

/-- The list `installed_files` that `uninstall_directory` reads back from
the tracking file's content. -/
def parseLines (s : String) : List String :=
  pyLinesAux [] s.data

/-- The loop `for fn in installed_files: fp.write(fn); fp.write(chr 10)`:
each path followed by a newline. -/
def serializeLines : List String → String
  | [] => ""
  | fn :: rest => fn ++ "\n" ++ serializeLines rest

/-- The tracking-list filename used by install and uninstall. -/
def trackingFileName : String := ".upm-installed-files"

/-- The tracked files `uninstall_directory` collects: `[]` (after a
warning) when the tracking file is absent, otherwise its parsed lines. -/
def trackedFiles (env : Env) (directory : String) : List String :=
  match env.readFile (pjoin directory trackingFileName) with
  | none => []
  | some content => parseLines content

/-- One iteration of the best-effort removal loop: `os.remove(fn)`, with
an `OSError` logged and swallowed. -/
def removalEv (env : Env) (fn : String) : Ev :=
  match env.removeResult fn with
  | .ok _ => Ev.remove fn
  | .error _ => Ev.removeFailed fn

/-- Translation of `Installer.uninstall_directory(directory)`: abort (non-destructively)
on a manifest parse failure; read the tracking list (warn and use zero
tracked files when absent); best-effort remove every tracked file; then
`shutil.rmtree(directory)` and return `True`. -/
def uninstall_directory (env : Env) (directory : String) : Bool × List Ev :=
  match env.parse directory with
  | .error _ => (false, [])
  | .ok _manifest =>
    let installed_files := trackedFiles env directory
    (true, installed_files.map (removalEv env) ++ [Ev.rmtree directory])

/-- The dependencies queued for installation: those for which
`session.load_package(dep_name, dep_sel)` raises `PackageNotFound`
(satisfied ones are skipped with a note), in declaration order. -/
def unmetDeps (env : Env) (manifest : PackageManifest) : List (String × String) :=
  manifest.dependencies.filter (fun d => !env.loadPackage d.1 (some d.2))

/-- The loop `for dep_name, dep_sel in deps: if not
self.install_from_registry(dep_name, dep_sel): return False` — the
recursive call is abstracted by the `registryInstall` oracle, and each
attempt is marked with a `depInstall` event. -/
def installDeps (env : Env) : List (String × String) → Bool × List Ev
  | [] => (true, [])
  | (dep_name, dep_sel) :: rest =>
    if env.registryInstall dep_name dep_sel then
      let r := installDeps env rest
      (r.1, Ev.depInstall dep_name dep_sel :: r.2)
    else (false, [Ev.depInstall dep_name dep_sel])

/-- The copy loop `for src, rel in walk_package_files(manifest)`:
`os.makedirs(os.path.dirname(dst))` followed by `shutil.copyfile(src, dst)`
for each selected file, with `dst = os.path.join(target_dir, rel)`. -/
def copyEvents (target_dir : String) (files : List (String × String)) : List Ev :=
  files.flatMap (fun sr =>
    let dst := pjoin target_dir sr.2
    [Ev.makedirs (dirname dst), Ev.copy sr.1 dst])

/-- The write phase of `install_from_directory` (source lines 248-272):
`_makedirs(target_dir)`, the copy loop over `walk_package_files`, the
launcher generation for the `scripts` and `bin` manifest entries, and
the tracking-list write.  Returns the `installed_files` accumulator
(copied destinations, then `scripts` launcher paths, then `bin` launcher
paths, in loop order) together with the events. -/
def installPhase (env : Env) (manifest : PackageManifest) : List String × List Ev :=
  let target_dir := pjoin env.dirs.packages manifest.name
  let files := walk_package_files manifest (env.walkFiles manifest.directory)
  let copied := files.map (fun sr => pjoin target_dir sr.2)
  let scriptRes := manifest.scripts.map (fun sc =>
    _make_script sc.1 (shlexSplit sc.2) env.dirs.bin)
  let binRes := manifest.bin.map (fun sc =>
    _make_bin sc.1 (pjoin target_dir sc.2) env.dirs.local_dir env.dirs.bin)
  let installed_files :=
    copied ++ (scriptRes.map Prod.fst).flatten ++ (binRes.map Prod.fst).flatten
  (installed_files,
    [Ev.makedirs target_dir] ++ copyEvents target_dir files
      ++ (scriptRes.map Prod.snd).flatten ++ (binRes.map Prod.snd).flatten
      ++ [Ev.writeTrackingList (pjoin target_dir trackingFileName)
            (serializeLines installed_files)])

/-- Translation of `Installer.install_from_directory(directory, expect)`.  Translated
control flow, in source order: manifest parse (failure is local and
reported), the `expect` identity guard, the target-directory existence
check (no-op success without `--upgrade`, uninstall-first with it),
dependency scan and queued-dependency installation, delegated pip
install of `python_dependencies`, the write phase (`installPhase`), and
finally the postinstall hook whose `BaseException` is caught and turned
into a `False` result. -/
def install_from_directory (env : Env) (directory : String)
    (expect : Option (String × String)) : Bool × List Ev :=
  match env.parse directory with
  | .error _ => (false, [])
  | .ok manifest =>
    if expect.isSome && expect != some (manifest.name, manifest.version) then
      (false, [])
    else
      let target_dir := pjoin env.dirs.packages manifest.name
      if env.exists_ target_dir && !env.upgrade then
        (true, [])
      else
        let u :=
          if env.exists_ target_dir then uninstall_directory env target_dir
          else (true, [])
        if !u.1 then (false, u.2)
        else
          let d := installDeps env (unmetDeps env manifest)
          if !d.1 then (false, u.2 ++ d.2)
          else
            let py_modules :=
              manifest.python_dependencies.map (fun dep => dep.1 ++ dep.2)
            if !py_modules.isEmpty &&
                env.pipInstall env.dirs.python_modules py_modules != 0 then
              (false, u.2 ++ d.2)
            else
              let w := installPhase env manifest
              let evs := u.2 ++ d.2 ++ w.2
              match manifest.postinstall with
              | none => (true, evs)
              | some post =>
                match env.runHook (pjoin target_dir post) with
                | .ok _ => (true, evs)
                | .error _ => (false, evs)

/-- Translation of `Installer.install_from_archive(archive, expect)`: make a scratch
directory, extract the archive into it, delegate to
`install_from_directory` (passed explicitly, so the model can be closed
with the real one), and remove the scratch directory in a `finally`
block — also when extraction or the delegate raises. -/
def install_from_archive (env : Env)
    (dirInstall : String → Option (String × String) → Except String Bool × List Ev)
    (archive : String) (expect : Option (String × String)) :
    Except String Bool × List Ev :=
  let directory := env.mkdtempName archive
  match env.extract archive directory with
  | .error e => (.error e, [Ev.mkdtemp directory, Ev.rmtree directory])
  | .ok extracted =>
    let r := dirInstall directory expect
    (r.1, Ev.mkdtemp directory :: Ev.extractArchive archive directory extracted
      :: r.2 ++ [Ev.rmtree directory])

/-- The function `install_from_directory` lifted to the exception-carrying shape
`install_from_archive` expects (the modelled function raises nothing). -/
def dirInstallOf (env : Env) (directory : String)
    (expect : Option (String × String)) : Except String Bool × List Ev :=
  let r := install_from_directory env directory expect
  (.ok r.1, r.2)

/-- Translation of `Installer.install_from_registry(package_name, selector)`: no-op
success when a satisfying version is already loadable and `upgrade` is
false; otherwise resolve the request through the registry, check the
defensive `assert info.name == package_name`, download to a named
temporary file, delegate to `install_from_archive` (passed explicitly)
with `expect = (package_name, info.version)`, and in a `finally` block
remove the temporary file if it still exists. -/
def install_from_registry (env : Env)
    (archiveInstall : String → Option (String × String) → Except String Bool × List Ev)
    (package_name selector : String) : Except String Bool × List Ev :=
  if env.loadPackage package_name (some selector) && !env.upgrade then
    (.ok true, [])
  else
    match env.regFind package_name selector with
    | .error e => (.error e, [])
    | .ok info =>
      if info.name != package_name then (.error "AssertionError", [])
      else
        let filename := env.regDownloadName info.name info.version
        let tmpname := env.mkstempName filename
        match env.downloadTo tmpname with
        | .error e =>
          let evs := [Ev.mkstemp tmpname]
          (.error e, evs ++
            if tmpname ∈ applyEvs env.fs0 evs then [Ev.remove tmpname] else [])
        | .ok _ =>
          let r := archiveInstall tmpname (some (package_name, info.version))
          let evs := Ev.mkstemp tmpname :: r.2
          (r.1, evs ++
            if tmpname ∈ applyEvs env.fs0 evs then [Ev.remove tmpname] else [])

/-- The dependencies the queued-install loop actually attempts: the
queued list up to and including the first one whose recursive install
fails, in declaration order. -/
def attemptedDeps (env : Env) : List (String × String) → List (String × String)
  | [] => []
  | d :: rest =>
    if env.registryInstall d.1 d.2 then d :: attemptedDeps env rest else [d]

/-- A concrete manifest used by the closed instances below. -/
def fooManifest : PackageManifest where
  name := "foo"
  version := "1.0.0"
  dependencies := [("dep", "*")]
  python_dependencies := []
  scripts := [("hello", "echo hi")]
  bin := [("fooctl", "cli.py")]
  postinstall := none
  dist_include_files := []
  directory := "/src/foo"

/-- The manifest `fooManifest` with a declared include pattern, for the file-selector
instances. -/
def txtManifest : PackageManifest :=
  { fooManifest with dist_include_files := ["*.txt"] }

/-- The manifest of the already-installed copy of `foo` (version
`0.9.0`, one old file), used by the upgrade instances. -/
def fooOldManifest : PackageManifest :=
  { fooManifest with version := "0.9.0", directory := "/pkgs/foo" }

/-- A concrete environment used by the closed instances below: a local
(non-global) installer over an empty filesystem, with every collaborator
succeeding. -/
def sampleEnv : Env where
  upgrade := false
  global_ := false
  dirs := { packages := "/pkgs", bin := "/bin",
            python_modules := "/pkgs/.pymodules", local_dir := some "/cwd" }
  parse := fun d =>
    if d == "/src/foo" then .ok fooManifest
    else if d == "/pkgs/foo" then .ok fooOldManifest
    else .error "NotAPackageDirectory"
  loadPackage := fun _ _ => false
  registryInstall := fun _ _ => true
  pipInstall := fun _ _ => 0
  walkFiles := fun _ => ["package.json", "main.py"]
  exists_ := fun _ => false
  readFile := fun _ => none
  removeResult := fun _ => .ok ()
  runHook := fun _ => .ok ()
  regFind := fun n _ => .ok { name := n, version := "1.0.0" }
  regDownloadName := fun n v => n ++ "-" ++ v ++ ".tgz"
  mkdtempName := fun _ => "/tmp/unpack"
  mkstempName := fun f => "/tmp/dl_" ++ f
  extract := fun _ _ => .ok ["package.json", "main.py"]
  downloadTo := fun _ => .ok ()
  fs0 := {}

/-- Environment `sampleEnv` in upgrade mode, with `foo@0.9.0` already installed at
`/pkgs/foo` (one tracked old file and one old launcher on disk). -/
def upgradeEnv : Env :=
  { sampleEnv with
    upgrade := true
    exists_ := fun d => d == "/pkgs/foo"
    readFile := fun p =>
      if p == "/pkgs/foo/.upm-installed-files" then
        some "/pkgs/foo/old.py\n/bin/oldctl\n"
      else none
    fs0 := {"/pkgs/foo/old.py", "/pkgs/foo/.upm-installed-files", "/bin/oldctl"} }

/-- Environment `sampleEnv` with every recursive dependency install failing. -/
def depFailEnv : Env := { sampleEnv with registryInstall := fun _ _ => false }

/-- The manifest `fooManifest` with a postinstall hook declared. -/
def postFooManifest : PackageManifest :=
  { fooManifest with postinstall := some "setup.py" }

/-- Environment `sampleEnv` whose source directory parses to `postFooManifest` and
whose postinstall hook raises. -/
def hookFailEnv : Env :=
  { sampleEnv with
    parse := fun d =>
      if d == "/src/foo" then .ok postFooManifest
      else .error "NotAPackageDirectory",
    runHook := fun _ => .error "boom" }

theorem writtenPaths_append (a b : List Ev) :
    writtenPaths (a ++ b) = writtenPaths a ++ writtenPaths b := by
  simp [writtenPaths]

theorem insertedPaths_append (a b : List Ev) :
    insertedPaths (a ++ b) = insertedPaths a ++ insertedPaths b := by
  simp [insertedPaths]

theorem applyEvs_append (fs : Finset String) (a b : List Ev) :
    applyEvs fs (a ++ b) = applyEvs (applyEvs fs a) b := by
  simp [applyEvs, List.foldl_append]

theorem mem_applyEv {fs : Finset String} {e : Ev} {f : String}
    (h : f ∈ applyEv fs e) : f ∈ fs ∨ f ∈ e.inserted := by
  cases e <;> simp_all [applyEv, Ev.inserted] <;> tauto

theorem mem_applyEvs {fs : Finset String} {evs : List Ev} {f : String}
    (h : f ∈ applyEvs fs evs) : f ∈ fs ∨ f ∈ insertedPaths evs := by
  induction evs generalizing fs with
  | nil => exact Or.inl h
  | cons e rest ih =>
    simp only [applyEvs, List.foldl_cons] at h
    rcases ih h with h' | h'
    · rcases mem_applyEv h' with h'' | h''
      · exact Or.inl h''
      · exact Or.inr (by simp [insertedPaths, List.flatMap_cons, h''])
    · refine Or.inr ?_
      simp only [insertedPaths, List.flatMap_cons, List.mem_append]
      exact Or.inr h'

theorem applyEv_keeps {fs : Finset String} {e : Ev} {f : String}
    (hk : e.keepsFiles = true) (h : f ∈ fs) : f ∈ applyEv fs e := by
  cases e <;> simp_all [applyEv, Ev.keepsFiles]

theorem applyEvs_keeps {fs : Finset String} {evs : List Ev} {f : String}
    (hk : ∀ e ∈ evs, e.keepsFiles = true) (h : f ∈ fs) :
    f ∈ applyEvs fs evs := by
  induction evs generalizing fs with
  | nil => exact h
  | cons e rest ih =>
    simp only [applyEvs, List.foldl_cons]
    exact ih (fun e' he' => hk e' (List.mem_cons_of_mem _ he'))
      (applyEv_keeps (hk e (List.mem_cons_self _ _)) h)

theorem mem_applyEv_of_inserted {fs : Finset String} {e : Ev} {f : String}
    (h : f ∈ e.inserted) : f ∈ applyEv fs e := by
  cases e <;> simp_all [applyEv, Ev.inserted]

theorem mem_applyEvs_of_inserted {fs : Finset String} {evs : List Ev} {f : String}
    (hk : ∀ e ∈ evs, e.keepsFiles = true) (h : f ∈ insertedPaths evs) :
    f ∈ applyEvs fs evs := by
  induction evs generalizing fs with
  | nil => simp [insertedPaths] at h
  | cons e rest ih =>
    simp only [insertedPaths, List.flatMap_cons, List.mem_append] at h
    simp only [applyEvs, List.foldl_cons]
    rcases h with h | h
    · exact applyEvs_keeps (fun e' he' => hk e' (List.mem_cons_of_mem _ he'))
        (mem_applyEv_of_inserted h)
    · exact ih (fun e' he' => hk e' (List.mem_cons_of_mem _ he')) h

theorem not_mem_applyEv_rmtree {fs : Finset String} {d f : String}
    (h : isUnder d f = true) : f ∉ applyEv fs (Ev.rmtree d) := by
  simp [applyEv, h]

theorem charsStartWith_append_self :
    ∀ (l t : List Char), charsStartWith l (l ++ t) = true
  | [], _ => rfl
  | a :: as, t => by simp [charsStartWith, charsStartWith_append_self as t]

theorem string_data_append (a b : String) : (a ++ b).data = a.data ++ b.data := by
  cases a
  cases b
  rfl

theorem isUnder_pjoin (d r : String) : isUnder d (pjoin d r) = true := by
  have h : (pjoin d r).data = (d ++ "/").data ++ r.data := string_data_append _ _
  have h2 : charsStartWith (d ++ "/").data ((d ++ "/").data ++ r.data) = true :=
    charsStartWith_append_self _ _
  simp only [isUnder, h, h2, Bool.or_true]

theorem removalEv_writePath (env : Env) (fn : String) :
    (removalEv env fn).writePath = none := by
  unfold removalEv
  cases env.removeResult fn <;> rfl

theorem removalEv_inserted (env : Env) (fn : String) :
    (removalEv env fn).inserted = [] := by
  unfold removalEv
  cases env.removeResult fn <;> rfl

theorem removalEv_ne_tracking (env : Env) (fn : String) (p c : String) :
    removalEv env fn ≠ Ev.writeTrackingList p c := by
  unfold removalEv
  cases env.removeResult fn <;> simp

theorem writtenPaths_nil_of_none {evs : List Ev}
    (h : ∀ e ∈ evs, e.writePath = none) : writtenPaths evs = [] := by
  induction evs with
  | nil => rfl
  | cons e rest ih =>
    unfold writtenPaths at *
    rw [List.filterMap_cons_none (h e (List.mem_cons_self _ _))]
    exact ih fun e' he' => h e' (List.mem_cons_of_mem _ he')

theorem insertedPaths_nil_of_nil {evs : List Ev}
    (h : ∀ e ∈ evs, e.inserted = []) : insertedPaths evs = [] := by
  induction evs with
  | nil => rfl
  | cons e rest ih =>
    unfold insertedPaths at *
    rw [List.flatMap_cons, h e (List.mem_cons_self _ _)]
    simpa using ih fun e' he' => h e' (List.mem_cons_of_mem _ he')

theorem mem_uninstall_trace {env : Env} {dir : String} {e : Ev}
    (h : e ∈ (uninstall_directory env dir).2) :
    (∃ p, e = Ev.remove p) ∨ (∃ p, e = Ev.removeFailed p) ∨ e = Ev.rmtree dir := by
  unfold uninstall_directory at h
  cases hp : env.parse dir with
  | error err => simp [hp] at h
  | ok m =>
    rw [hp] at h
    simp only [List.mem_append, List.mem_map, List.mem_singleton] at h
    rcases h with ⟨fn, _, rfl⟩ | rfl
    · rcases hr : env.removeResult fn with e | u
      · exact Or.inr (Or.inl ⟨fn, by simp [removalEv, hr]⟩)
      · exact Or.inl ⟨fn, by simp [removalEv, hr]⟩
    · exact Or.inr (Or.inr rfl)

theorem uninstall_no_writes (env : Env) (dir : String) :
    writtenPaths (uninstall_directory env dir).2 = [] ∧
    insertedPaths (uninstall_directory env dir).2 = [] ∧
    ∀ p c, Ev.writeTrackingList p c ∉ (uninstall_directory env dir).2 := by
  refine ⟨writtenPaths_nil_of_none ?_, insertedPaths_nil_of_nil ?_, ?_⟩
  · intro e he
    rcases mem_uninstall_trace he with ⟨p, rfl⟩ | ⟨p, rfl⟩ | rfl <;> rfl
  · intro e he
    rcases mem_uninstall_trace he with ⟨p, rfl⟩ | ⟨p, rfl⟩ | rfl <;> rfl
  · intro p c hmem
    rcases mem_uninstall_trace hmem with ⟨q, hq⟩ | ⟨q, hq⟩ | hq <;> simp at hq

theorem installDeps_trace (env : Env) (l : List (String × String)) :
    (installDeps env l).2 =
      (attemptedDeps env l).map (fun d => Ev.depInstall d.1 d.2) := by
  induction l with
  | nil => rfl
  | cons d rest ih =>
    unfold installDeps attemptedDeps
    by_cases h : env.registryInstall d.1 d.2 <;> simp [h, ih]

theorem mem_deps_trace {env : Env} {l : List (String × String)} {e : Ev}
    (h : e ∈ (installDeps env l).2) : ∃ n s, e = Ev.depInstall n s := by
  rw [installDeps_trace] at h
  obtain ⟨d, _, rfl⟩ := List.mem_map.1 h
  exact ⟨d.1, d.2, rfl⟩

theorem deps_no_writes (env : Env) (l : List (String × String)) :
    writtenPaths (installDeps env l).2 = [] ∧
    insertedPaths (installDeps env l).2 = [] ∧
    (∀ e ∈ (installDeps env l).2, e.keepsFiles = true) ∧
    ∀ p c, Ev.writeTrackingList p c ∉ (installDeps env l).2 := by
  refine ⟨writtenPaths_nil_of_none ?_, insertedPaths_nil_of_nil ?_, ?_, ?_⟩
  · intro e he
    obtain ⟨n, s, rfl⟩ := mem_deps_trace he
    rfl
  · intro e he
    obtain ⟨n, s, rfl⟩ := mem_deps_trace he
    rfl
  · intro e he
    obtain ⟨n, s, rfl⟩ := mem_deps_trace he
    rfl
  · intro p c hmem
    obtain ⟨n, s, he⟩ := mem_deps_trace hmem
    simp at he

theorem scriptlike_facts (L : List (List String × List Ev))
    (h : ∀ pe ∈ L, ∃ q, pe = ([q], [Ev.writeScript q])) :
    writtenPaths (L.map Prod.snd).flatten = (L.map Prod.fst).flatten ∧
    insertedPaths (L.map Prod.snd).flatten = (L.map Prod.fst).flatten ∧
    ∀ e ∈ (L.map Prod.snd).flatten, ∃ q, e = Ev.writeScript q := by
  induction L with
  | nil => exact ⟨rfl, rfl, by simp⟩
  | cons pe rest ih =>
    obtain ⟨q, rfl⟩ := h pe (List.mem_cons_self _ _)
    obtain ⟨h1, h2, h3⟩ := ih fun pe' hp => h pe' (List.mem_cons_of_mem _ hp)
    refine ⟨?_, ?_, ?_⟩
    · simp only [List.map_cons, List.flatten_cons, writtenPaths_append, h1]
      rfl
    · simp only [List.map_cons, List.flatten_cons, insertedPaths_append, h2]
      rfl
    · intro e he
      simp only [List.map_cons, List.flatten_cons, List.mem_append,
        List.mem_singleton] at he
      rcases he with rfl | he
      · exact ⟨q, rfl⟩
      · exact h3 e he

theorem scripts_shape (env : Env) (m : PackageManifest) :
    ∀ pe ∈ m.scripts.map (fun sc => _make_script sc.1 (shlexSplit sc.2) env.dirs.bin),
      ∃ q, pe = ([q], [Ev.writeScript q]) := by
  intro pe hpe
  obtain ⟨sc, _, rfl⟩ := List.mem_map.1 hpe
  exact ⟨pjoin env.dirs.bin sc.1, rfl⟩

theorem bins_shape (env : Env) (m : PackageManifest) (target_dir : String) :
    ∀ pe ∈ m.bin.map (fun sc =>
        _make_bin sc.1 (pjoin target_dir sc.2) env.dirs.local_dir env.dirs.bin),
      ∃ q, pe = ([q], [Ev.writeScript q]) := by
  intro pe hpe
  obtain ⟨sc, _, rfl⟩ := List.mem_map.1 hpe
  exact ⟨pjoin env.dirs.bin sc.1, rfl⟩

theorem copyEvents_facts (td : String) (files : List (String × String)) :
    writtenPaths (copyEvents td files) = files.map (fun sr => pjoin td sr.2) ∧
    insertedPaths (copyEvents td files) = files.map (fun sr => pjoin td sr.2) ∧
    ∀ e ∈ copyEvents td files,
      (∃ d, e = Ev.makedirs d) ∨ ∃ s t, e = Ev.copy s t := by
  induction files with
  | nil => exact ⟨rfl, rfl, by simp [copyEvents]⟩
  | cons sr rest ih =>
    obtain ⟨h1, h2, h3⟩ := ih
    have hc : copyEvents td (sr :: rest) =
        [Ev.makedirs (dirname (pjoin td sr.2)), Ev.copy sr.1 (pjoin td sr.2)]
          ++ copyEvents td rest := by
      simp [copyEvents]
    refine ⟨?_, ?_, ?_⟩
    · rw [hc, writtenPaths_append, h1]
      rfl
    · rw [hc, insertedPaths_append, h2]
      rfl
    · intro e he
      rw [hc] at he
      rcases List.mem_append.1 he with h' | h'
      · rcases List.mem_cons.1 h' with h'' | h''
        · exact Or.inl ⟨_, h''⟩
        · rcases List.mem_cons.1 h'' with h4 | h4
          · exact Or.inr ⟨_, _, h4⟩
          · exact absurd h4 (List.not_mem_nil e)
      · exact h3 e h'

theorem installPhase_trace_eq (env : Env) (m : PackageManifest) :
    (installPhase env m).2 =
      [Ev.makedirs (pjoin env.dirs.packages m.name)]
        ++ copyEvents (pjoin env.dirs.packages m.name)
            (walk_package_files m (env.walkFiles m.directory))
        ++ ((m.scripts.map (fun sc =>
              _make_script sc.1 (shlexSplit sc.2) env.dirs.bin)).map Prod.snd).flatten
        ++ ((m.bin.map (fun sc =>
              _make_bin sc.1 (pjoin (pjoin env.dirs.packages m.name) sc.2)
                env.dirs.local_dir env.dirs.bin)).map Prod.snd).flatten
        ++ [Ev.writeTrackingList
              (pjoin (pjoin env.dirs.packages m.name) trackingFileName)
              (serializeLines (installPhase env m).1)] := by
  rfl

theorem installPhase_files_eq (env : Env) (m : PackageManifest) :
    (installPhase env m).1 =
      (walk_package_files m (env.walkFiles m.directory)).map
          (fun sr => pjoin (pjoin env.dirs.packages m.name) sr.2)
        ++ ((m.scripts.map (fun sc =>
              _make_script sc.1 (shlexSplit sc.2) env.dirs.bin)).map Prod.fst).flatten
        ++ ((m.bin.map (fun sc =>
              _make_bin sc.1 (pjoin (pjoin env.dirs.packages m.name) sc.2)
                env.dirs.local_dir env.dirs.bin)).map Prod.fst).flatten := by
  rfl

theorem installPhase_facts (env : Env) (m : PackageManifest) :
    writtenPaths (installPhase env m).2 = (installPhase env m).1 ∧
    insertedPaths (installPhase env m).2 =
      (installPhase env m).1 ++
        [pjoin (pjoin env.dirs.packages m.name) trackingFileName] ∧
    (∀ e ∈ (installPhase env m).2, e.keepsFiles = true) ∧
    ∀ p c, Ev.writeTrackingList p c ∈ (installPhase env m).2 →
      p = pjoin (pjoin env.dirs.packages m.name) trackingFileName ∧
      c = serializeLines (installPhase env m).1 := by
  obtain ⟨cw, ci, ck⟩ := copyEvents_facts (pjoin env.dirs.packages m.name)
    (walk_package_files m (env.walkFiles m.directory))
  obtain ⟨sw, si, sk⟩ := scriptlike_facts _ (scripts_shape env m)
  obtain ⟨bw, bi, bk⟩ :=
    scriptlike_facts _ (bins_shape env m (pjoin env.dirs.packages m.name))
  refine ⟨?_, ?_, ?_, ?_⟩
  · rw [installPhase_trace_eq, writtenPaths_append, writtenPaths_append,
      writtenPaths_append, writtenPaths_append, cw, sw, bw,
      installPhase_files_eq]
    simp [writtenPaths, Ev.writePath]
  · rw [installPhase_trace_eq, insertedPaths_append, insertedPaths_append,
      insertedPaths_append, insertedPaths_append, ci, si, bi,
      installPhase_files_eq]
    simp [insertedPaths, Ev.inserted]
  · intro e he
    rw [installPhase_trace_eq] at he
    rcases List.mem_append.1 he with he | he
    · rcases List.mem_append.1 he with he | he
      · rcases List.mem_append.1 he with he | he
        · rcases List.mem_append.1 he with he | he
          · rcases List.mem_cons.1 he with rfl | he
            · rfl
            · exact absurd he (List.not_mem_nil e)
          · rcases ck e he with ⟨d, rfl⟩ | ⟨s, t, rfl⟩ <;> rfl
        · obtain ⟨q, rfl⟩ := sk e he
          rfl
      · obtain ⟨q, rfl⟩ := bk e he
        rfl
    · rcases List.mem_cons.1 he with rfl | he
      · rfl
      · exact absurd he (List.not_mem_nil e)
  · intro p c hmem
    rw [installPhase_trace_eq] at hmem
    rcases List.mem_append.1 hmem with he | he
    · rcases List.mem_append.1 he with he | he
      · rcases List.mem_append.1 he with he | he
        · rcases List.mem_append.1 he with he | he
          · rcases List.mem_cons.1 he with he | he
            · exact absurd he (by simp)
            · exact absurd he (List.not_mem_nil _)
          · rcases ck _ he with ⟨d, hd⟩ | ⟨s, t, hd⟩ <;> simp at hd
        · obtain ⟨q, hq⟩ := sk _ he
          simp at hq
      · obtain ⟨q, hq⟩ := bk _ he
        simp at hq
    · rcases List.mem_cons.1 he with he | he
      · injection he with h1 h2
        exact ⟨h1, h2⟩
      · exact absurd he (List.not_mem_nil _)

theorem check_include_self_exclude (rel : String) (pats extra : List String)
    (h : pats ≠ []) : _check_include_file rel pats (pats ++ extra) = false := by
  unfold _check_include_file
  by_cases hm : _match_any_pattern rel (pats ++ extra) = true
  · simp [hm]
  · have hm' : _match_any_pattern rel (pats ++ extra) = false := by
      simpa using hm
    have hp : _match_any_pattern rel pats = false := by
      unfold _match_any_pattern at hm' ⊢
      rw [List.any_append] at hm'
      exact (Bool.or_eq_false_iff.1 hm').1
    have hne : pats.isEmpty = false := by
      cases pats
      · exact absurd rfl h
      · rfl
    simp [hm', hne, hp]

/-- C10: for every manifest whose declared `include_files` list is
non-empty, `walk_package_files` yields exactly the walked files whose
relative path is `package.json` and no others: each include pattern is
also appended to the exclude-pattern list, so a file matching an include
pattern is rejected as excluded, and a file matching no include pattern
fails the include check. -/
theorem C10_nonempty_include_yields_only_manifest (m : PackageManifest)
    (files : List String) (h : m.dist_include_files ≠ []) :
    walk_package_files m files =
      (files.filter (fun rel => rel == "package.json")).map
        (fun rel => (pjoin m.directory rel, rel)) := by
  simp only [walk_package_files]
  have hf : files.filter (fun rel =>
      rel == "package.json" ||
        _check_include_file rel m.dist_include_files
          (m.dist_include_files ++ default_exclude_patterns)) =
      files.filter (fun rel => rel == "package.json") := by
    apply List.filter_congr
    intro rel _
    rw [check_include_self_exclude rel _ _ h, Bool.or_false]
  rw [hf]

/-- Witness for C10 at a concrete input: include pattern `*.txt`,
files `notes.txt`, `cache/.DS_Store` and `package.json`; only the
manifest file is yielded. -/
theorem C10_nonempty_include_yields_only_manifest_witness :
    txtManifest.dist_include_files ≠ [] ∧
    walk_package_files txtManifest
        ["notes.txt", "cache/.DS_Store", "package.json"] =
      [("/src/foo/package.json", "package.json")] :=
  ⟨by decide,
    (C10_nonempty_include_yields_only_manifest txtManifest
      ["notes.txt", "cache/.DS_Store", "package.json"] (by decide)).trans (by rfl)⟩

/-- C1 (evaluation of the code at the spec's own example, showing the
divergence): the include pattern `*.txt` matches `notes.txt`, and the
spec's selection rule (section 4.1) selects it, but `walk_package_files`
does not yield it — the declared include patterns are also used as
exclude patterns (install.py line 90 builds `expat` from `include_files`
plus the defaults), so every file matching an include pattern is
rejected.  The spec's other two sub-examples hold: `cache/.DS_Store` is
not selected, and the manifest's own `package.json` is force-included. -/
theorem C1_include_pattern_excludes_notes_txt :
    fnmatch "notes.txt" "*.txt" = true ∧
    spec_file_selected txtManifest [] "notes.txt" = true ∧
    walk_package_files txtManifest ["notes.txt"] = [] ∧
    spec_file_selected txtManifest [] "cache/.DS_Store" = false ∧
    walk_package_files txtManifest ["cache/.DS_Store"] = [] ∧
    walk_package_files txtManifest ["package.json"] =
      [("/src/foo/package.json", "package.json")] := by
  decide

theorem install_cases (env : Env) (directory : String)
    (expect : Option (String × String)) :
    (install_from_directory env directory expect).2 = [] ∨
    ∃ m uevs devs,
      env.parse directory = .ok m ∧
      (uevs = [] ∨
        uevs = (uninstall_directory env (pjoin env.dirs.packages m.name)).2) ∧
      (devs = [] ∨ devs = (installDeps env (unmetDeps env m)).2) ∧
      ((install_from_directory env directory expect).2 = uevs ∨
       (install_from_directory env directory expect).2 = uevs ++ devs ∨
       (install_from_directory env directory expect).2 =
         uevs ++ devs ++ (installPhase env m).2) := by
  unfold install_from_directory
  cases hp : env.parse directory with
  | error e => exact Or.inl rfl
  | ok m =>
    simp only
    by_cases hx : (expect.isSome && expect != some (m.name, m.version)) = true
    · rw [if_pos hx]
      exact Or.inl rfl
    · rw [if_neg hx]
      by_cases hnoop :
          (env.exists_ (pjoin env.dirs.packages m.name) && !env.upgrade) = true
      · rw [if_pos hnoop]
        exact Or.inl rfl
      · rw [if_neg hnoop]
        by_cases he : env.exists_ (pjoin env.dirs.packages m.name) = true
        · rw [if_pos he]
          by_cases hu :
              (uninstall_directory env (pjoin env.dirs.packages m.name)).1 = true
          · rw [if_neg (by simp [hu])]
            by_cases hd : (installDeps env (unmetDeps env m)).1 = true
            · rw [if_neg (by simp [hd])]
              by_cases hpip : (!(m.python_dependencies.map
                    (fun dep => dep.1 ++ dep.2)).isEmpty &&
                  env.pipInstall env.dirs.python_modules
                    (m.python_dependencies.map (fun dep => dep.1 ++ dep.2)) != 0)
                  = true
              · rw [if_pos hpip]
                refine Or.inr ⟨m, _, _, rfl, Or.inr rfl, Or.inr rfl,
                  Or.inr (Or.inl rfl)⟩
              · rw [if_neg hpip]
                refine Or.inr ⟨m, _, _, rfl, Or.inr rfl, Or.inr rfl,
                  Or.inr (Or.inr ?_)⟩
                cases hpost : m.postinstall with
                | none => simp
                | some post =>
                  rcases hr : env.runHook
                      (pjoin (pjoin env.dirs.packages m.name) post) with e | u <;>
                    simp [hr]
            · rw [if_pos (by simp [Bool.not_eq_true] at hd; simp [hd])]
              exact Or.inr ⟨m, _, _, rfl, Or.inr rfl, Or.inr rfl,
                Or.inr (Or.inl rfl)⟩
          · rw [if_pos (by simp [Bool.not_eq_true] at hu; simp [hu])]
            exact Or.inr ⟨m, _, [], rfl, Or.inr rfl, Or.inl rfl, Or.inl rfl⟩
        · rw [if_neg he]
          by_cases hd : (installDeps env (unmetDeps env m)).1 = true
          · rw [if_neg (by simp)]
            rw [if_neg (by simp [hd])]
            by_cases hpip : (!(m.python_dependencies.map
                  (fun dep => dep.1 ++ dep.2)).isEmpty &&
                env.pipInstall env.dirs.python_modules
                  (m.python_dependencies.map (fun dep => dep.1 ++ dep.2)) != 0)
                = true
            · rw [if_pos hpip]
              exact Or.inr ⟨m, [], _, rfl, Or.inl rfl, Or.inr rfl,
                Or.inr (Or.inl (by simp))⟩
            · rw [if_neg hpip]
              refine Or.inr ⟨m, [], _, rfl, Or.inl rfl, Or.inr rfl,
                Or.inr (Or.inr ?_)⟩
              cases hpost : m.postinstall with
              | none => simp
              | some post =>
                rcases hr : env.runHook
                    (pjoin (pjoin env.dirs.packages m.name) post) with e | u <;>
                  simp [hr]
          · rw [if_neg (by simp)]
            rw [if_pos (by simp [Bool.not_eq_true] at hd; simp [hd])]
            exact Or.inr ⟨m, [], _, rfl, Or.inl rfl, Or.inr rfl,
              Or.inr (Or.inl (by simp))⟩

theorem pyLinesAux_no_newline (sd : List Char) (rest : List Char)
    (h : '\n' ∉ sd) : ∀ acc : List Char,
    pyLinesAux acc (sd ++ '\n' :: rest) =
      String.mk (acc.reverse ++ sd) :: pyLinesAux [] rest := by
  induction sd with
  | nil =>
    intro acc
    simp [pyLinesAux]
  | cons c cs ih =>
    intro acc
    have hc : ¬(c = '\n') := fun hcc => h (hcc ▸ List.mem_cons_self _ _)
    simp only [List.cons_append, pyLinesAux, if_neg hc, List.append_eq]
    rw [ih (fun hm => h (List.mem_cons_of_mem _ hm)) (c :: acc)]
    simp

theorem parseLines_serializeLines (l : List String)
    (h : ∀ s ∈ l, '\n' ∉ s.data) : parseLines (serializeLines l) = l := by
  induction l with
  | nil => rfl
  | cons s rest ih =>
    unfold parseLines serializeLines
    have hd : (s ++ "\n" ++ serializeLines rest).data
        = s.data ++ '\n' :: (serializeLines rest).data := by
      rw [string_data_append, string_data_append]
      simp
    rw [hd, pyLinesAux_no_newline s.data _ (h s (List.mem_cons_self _ _)) []]
    have hs : String.mk (List.reverse [] ++ s.data) = s := rfl
    rw [hs]
    exact congrArg (s :: ·) (ih fun s' hs' => h s' (List.mem_cons_of_mem _ hs'))

/-- C2: whenever `install_from_directory` persists the tracking list, the
content written is exactly `serializeLines` of the destination paths of
the copy and launcher writes of that same call's trace, in order — every
copied file destination plus every generated launcher path, one per
line, newline-terminated, no more and no less; parsing the persisted
content back (as `uninstall_directory` does) recovers exactly that list
of paths; and `uninstall_directory` never reconstructs its removal set
from the package manifest: two parse oracles returning arbitrary
different manifests give identical uninstall results. -/
theorem C2_tracking_list_exact (env : Env) (directory : String)
    (expect : Option (String × String)) :
    (∀ p c,
      Ev.writeTrackingList p c ∈ (install_from_directory env directory expect).2 →
      c = serializeLines
            (writtenPaths (install_from_directory env directory expect).2)) ∧
    (∀ l : List String, (∀ s ∈ l, '\n' ∉ s.data) →
      parseLines (serializeLines l) = l) ∧
    ∀ (m₁ m₂ : PackageManifest) (d : String),
      uninstall_directory { env with parse := fun _ => .ok m₁ } d =
        uninstall_directory { env with parse := fun _ => .ok m₂ } d := by
  refine ⟨?_, parseLines_serializeLines, fun m₁ m₂ d => rfl⟩
  intro p c hmem
  rcases install_cases env directory expect with hnil | ⟨m, uevs, devs, _, hu, hd, htr⟩
  · rw [hnil] at hmem
    exact absurd hmem (List.not_mem_nil _)
  · have huw : writtenPaths uevs = [] := by
      rcases hu with rfl | rfl
      · rfl
      · exact (uninstall_no_writes env _).1
    have hut : Ev.writeTrackingList p c ∉ uevs := by
      rcases hu with rfl | rfl
      · exact List.not_mem_nil _
      · exact (uninstall_no_writes env _).2.2 p c
    have hdw : writtenPaths devs = [] := by
      rcases hd with rfl | rfl
      · rfl
      · exact (deps_no_writes env _).1
    have hdt : Ev.writeTrackingList p c ∉ devs := by
      rcases hd with rfl | rfl
      · exact List.not_mem_nil _
      · exact (deps_no_writes env _).2.2.2 p c
    rcases htr with htr | htr | htr
    · rw [htr] at hmem
      exact absurd hmem hut
    · rw [htr] at hmem
      rcases List.mem_append.1 hmem with hmem | hmem
      · exact absurd hmem hut
      · exact absurd hmem hdt
    · rw [htr] at hmem
      obtain ⟨pw, pi, pk, pt⟩ := installPhase_facts env m
      rcases List.mem_append.1 hmem with hmem' | hmem'
      · rcases List.mem_append.1 hmem' with hmem'' | hmem''
        · exact absurd hmem'' hut
        · exact absurd hmem'' hdt
      · obtain ⟨hp', hc'⟩ := pt p c hmem'
        rw [htr, writtenPaths_append, writtenPaths_append, huw, hdw, pw, hc']
        simp

/-- Witness for C2 at a concrete input: installing `foo@1.0.0` from
`/src/foo` with `sampleEnv` writes a tracking list whose content is the
serialization of the four written paths, which parses back to exactly
those paths; and uninstall behaviour is manifest-independent. -/
theorem C2_tracking_list_exact_witness :
    ("/pkgs/foo/package.json\n/pkgs/foo/main.py\n/bin/hello\n/bin/fooctl\n" =
      serializeLines
        (writtenPaths (install_from_directory sampleEnv "/src/foo" none).2)) ∧
    parseLines "/pkgs/foo/package.json\n/pkgs/foo/main.py\n/bin/hello\n/bin/fooctl\n"
      = ["/pkgs/foo/package.json", "/pkgs/foo/main.py", "/bin/hello", "/bin/fooctl"] ∧
    uninstall_directory { sampleEnv with parse := fun _ => .ok fooManifest } "/pkgs/foo"
      = uninstall_directory { sampleEnv with parse := fun _ => .ok fooOldManifest } "/pkgs/foo" := by
  refine ⟨(C2_tracking_list_exact sampleEnv "/src/foo" none).1
    "/pkgs/foo/.upm-installed-files"
    "/pkgs/foo/package.json\n/pkgs/foo/main.py\n/bin/hello\n/bin/fooctl\n"
    (by decide), by decide,
    (C2_tracking_list_exact sampleEnv "/src/foo" none).2.2 fooManifest fooOldManifest "/pkgs/foo"⟩

/-- C4: installing an already-installed package without upgrade is a
successful no-op on both entry points: `install_from_directory` returns
`True` with an empty trace when the target directory exists and
`upgrade` is false, `install_from_registry` returns `True` with an empty
trace when a satisfying version is already loadable and `upgrade` is
false, and in both cases the filesystem (hence the target directory and
its tracking list) is left unchanged. -/
theorem C4_already_installed_noop (env : Env) (directory : String)
    (expect : Option (String × String)) (m : PackageManifest)
    (name selector : String)
    (archiveInstall :
      String → Option (String × String) → Except String Bool × List Ev) :
    (env.parse directory = .ok m →
      (expect = none ∨ expect = some (m.name, m.version)) →
      env.exists_ (pjoin env.dirs.packages m.name) = true →
      env.upgrade = false →
      install_from_directory env directory expect = (true, []) ∧
      applyEvs env.fs0 (install_from_directory env directory expect).2 = env.fs0) ∧
    (env.loadPackage name (some selector) = true → env.upgrade = false →
      install_from_registry env archiveInstall name selector = (.ok true, []) ∧
      applyEvs env.fs0
        (install_from_registry env archiveInstall name selector).2 = env.fs0) := by
  constructor
  · intro hp hx he hu
    have hr : install_from_directory env directory expect = (true, []) := by
      have hxb : (expect.isSome && expect != some (m.name, m.version)) = false := by
        rcases hx with rfl | rfl <;> simp
      simp only [install_from_directory, hp]
      rw [if_neg (by simp [hxb]), if_pos (by simp [he, hu])]
    exact ⟨hr, by rw [hr]; rfl⟩
  · intro hl hu
    have hr : install_from_registry env archiveInstall name selector =
        (.ok true, []) := by
      unfold install_from_registry
      rw [if_pos (by simp [hl, hu])]
    exact ⟨hr, by rw [hr]; rfl⟩

/-- Witness for C4 at concrete inputs: with `foo` already present at
`/pkgs/foo` (directory case) or already loadable (registry case) and
`upgrade` off, both calls report success and change nothing. -/
theorem C4_already_installed_noop_witness :
    (install_from_directory
        { sampleEnv with exists_ := fun _ => true } "/src/foo" none = (true, []) ∧
      applyEvs ({} : Finset String)
        (install_from_directory
          { sampleEnv with exists_ := fun _ => true } "/src/foo" none).2 = {}) ∧
    (install_from_registry { sampleEnv with loadPackage := fun _ _ => true }
        (fun _ _ => (.ok true, [])) "foo" "1.x" = (.ok true, []) ∧
      applyEvs ({} : Finset String)
        (install_from_registry { sampleEnv with loadPackage := fun _ _ => true }
          (fun _ _ => (.ok true, [])) "foo" "1.x").2 = {}) :=
  ⟨(C4_already_installed_noop { sampleEnv with exists_ := fun _ => true }
      "/src/foo" none fooManifest "foo" "1.x" (fun _ _ => (.ok true, []))).1
      rfl (Or.inl rfl) rfl rfl,
   (C4_already_installed_noop { sampleEnv with loadPackage := fun _ _ => true }
      "/src/foo" none fooManifest "foo" "1.x" (fun _ _ => (.ok true, []))).2
      rfl rfl⟩

/-- C6: when `expect` is given and the parsed manifest identity differs,
`install_from_directory` fails with an empty trace — before creating the
target directory or writing any file; consequently
`install_from_archive` over such an extracted archive fails (`.ok
false`), its trace is only the scratch-directory lifecycle (make,
extract, remove), and the final filesystem is contained in the initial
one — no package file is left installed anywhere. -/
theorem C6_expect_mismatch_fails_before_write (env : Env) (archive : String)
    (en ev : String) (m : PackageManifest) (extracted : List String)
    (hp : env.parse (env.mkdtempName archive) = .ok m)
    (hmm : (m.name, m.version) ≠ (en, ev))
    (hex : env.extract archive (env.mkdtempName archive) = .ok extracted) :
    install_from_directory env (env.mkdtempName archive) (some (en, ev)) =
      (false, []) ∧
    install_from_archive env (dirInstallOf env) archive (some (en, ev)) =
      (.ok false,
        [Ev.mkdtemp (env.mkdtempName archive),
         Ev.extractArchive archive (env.mkdtempName archive) extracted,
         Ev.rmtree (env.mkdtempName archive)]) ∧
    applyEvs env.fs0
        (install_from_archive env (dirInstallOf env) archive
          (some (en, ev))).2 ⊆ env.fs0 := by
  have h1 : install_from_directory env (env.mkdtempName archive)
      (some (en, ev)) = (false, []) := by
    have hxb : (some (en, ev) != some (m.name, m.version)) = true := by
      rw [bne_iff_ne]
      exact fun hcc => hmm (Option.some.inj hcc).symm
    simp only [install_from_directory, hp]
    rw [if_pos (by simp [hxb])]
  have h2 : install_from_archive env (dirInstallOf env) archive
      (some (en, ev)) =
      (.ok false,
        [Ev.mkdtemp (env.mkdtempName archive),
         Ev.extractArchive archive (env.mkdtempName archive) extracted,
         Ev.rmtree (env.mkdtempName archive)]) := by
    simp only [install_from_archive, hex, dirInstallOf, h1]
    rfl
  refine ⟨h1, h2, ?_⟩
  rw [h2]
  intro f hf
  have hf' := Finset.mem_filter.1 hf
  rcases Finset.mem_union.1 hf'.1 with hin | hin
  · exact hin
  · obtain ⟨rel, _, rfl⟩ := List.mem_map.1 (List.mem_toFinset.1 hin)
    have := isUnder_pjoin (env.mkdtempName archive) rel
    rw [this] at hf'
    exact absurd hf'.2 (by simp)

/-- Witness for C6 at a concrete input: the extracted manifest declares
`foo@1.0.0` while the caller expected `foo@2.0.0`. -/
theorem C6_expect_mismatch_fails_before_write_witness :
    install_from_directory { sampleEnv with
        parse := fun _ => .ok { fooManifest with directory := "/tmp/unpack" } }
      "/tmp/unpack" (some ("foo", "2.0.0")) = (false, []) ∧
    (install_from_archive { sampleEnv with
        parse := fun _ => .ok { fooManifest with directory := "/tmp/unpack" } }
      (dirInstallOf { sampleEnv with
        parse := fun _ => .ok { fooManifest with directory := "/tmp/unpack" } })
      "foo.tgz" (some ("foo", "2.0.0"))).1 = .ok false := by
  have h := C6_expect_mismatch_fails_before_write
    { sampleEnv with
        parse := fun _ => .ok { fooManifest with directory := "/tmp/unpack" } }
    "foo.tgz" "foo" "2.0.0" { fooManifest with directory := "/tmp/unpack" }
    ["package.json", "main.py"] rfl (by decide) rfl
  exact ⟨h.1, by rw [h.2.1]⟩

theorem uninstall_true_trace (env : Env) (dir : String)
    (h : (uninstall_directory env dir).1 = true) :
    (uninstall_directory env dir).2 =
      (trackedFiles env dir).map (removalEv env) ++ [Ev.rmtree dir] := by
  cases hp : env.parse dir with
  | error e => simp [uninstall_directory, hp] at h
  | ok m' => simp [uninstall_directory, hp]

/-- C3: on the upgrade path (target directory exists, `upgrade` true),
`install_from_directory` runs `uninstall_directory` on the target first
— its events form a prefix of the trace and create no file; an
uninstall failure aborts the install with no further events; and when
the uninstall succeeds and the install returns success, every file under
the target directory in the final filesystem is one of the new version's
written files (or its freshly written tracking list) — the old directory
is never merged into, because the uninstall's `rmtree` removed
everything under the target before the copy phase ran. -/
theorem C3_upgrade_uninstalls_first (env : Env) (directory : String)
    (expect : Option (String × String)) (m : PackageManifest)
    (hp : env.parse directory = .ok m)
    (hx : expect = none ∨ expect = some (m.name, m.version))
    (he : env.exists_ (pjoin env.dirs.packages m.name) = true)
    (hu : env.upgrade = true) :
    (∃ rest, (install_from_directory env directory expect).2 =
      (uninstall_directory env (pjoin env.dirs.packages m.name)).2 ++ rest) ∧
    insertedPaths
      (uninstall_directory env (pjoin env.dirs.packages m.name)).2 = [] ∧
    ((uninstall_directory env (pjoin env.dirs.packages m.name)).1 = false →
      install_from_directory env directory expect =
        (false, (uninstall_directory env (pjoin env.dirs.packages m.name)).2)) ∧
    ((uninstall_directory env (pjoin env.dirs.packages m.name)).1 = true →
      (install_from_directory env directory expect).1 = true →
      ∀ f ∈ applyEvs env.fs0 (install_from_directory env directory expect).2,
        isUnder (pjoin env.dirs.packages m.name) f = true →
        f ∈ (installPhase env m).1 ∨
          f = pjoin (pjoin env.dirs.packages m.name) trackingFileName) := by
  have hxb : (expect.isSome && expect != some (m.name, m.version)) = false := by
    rcases hx with rfl | rfl <;> simp
  by_cases hu1 : (uninstall_directory env (pjoin env.dirs.packages m.name)).1 = true
  · have h2 : (install_from_directory env directory expect).2 =
        (uninstall_directory env (pjoin env.dirs.packages m.name)).2
          ++ (installDeps env (unmetDeps env m)).2 ++ (installPhase env m).2 ∨
        ((install_from_directory env directory expect).1 = false ∧
         (install_from_directory env directory expect).2 =
           (uninstall_directory env (pjoin env.dirs.packages m.name)).2
             ++ (installDeps env (unmetDeps env m)).2) := by
      simp only [install_from_directory, hp]
      rw [if_neg (by simp [hxb]), if_neg (by simp [he, hu]), if_pos he,
        if_neg (by simp [hu1])]
      by_cases hd : (installDeps env (unmetDeps env m)).1 = true
      · rw [if_neg (by simp [hd])]
        by_cases hpip : (!(m.python_dependencies.map
              (fun dep => dep.1 ++ dep.2)).isEmpty &&
            env.pipInstall env.dirs.python_modules
              (m.python_dependencies.map (fun dep => dep.1 ++ dep.2)) != 0) = true
        · rw [if_pos hpip]
          exact Or.inr ⟨rfl, rfl⟩
        · rw [if_neg hpip]
          cases hpost : m.postinstall with
          | none => exact Or.inl rfl
          | some post =>
            rcases hr : env.runHook
                (pjoin (pjoin env.dirs.packages m.name) post) with e | u <;>
              simp [hr]
      · rw [if_pos (by simp [Bool.not_eq_true] at hd; simp [hd])]
        exact Or.inr ⟨rfl, rfl⟩
    refine ⟨?_, (uninstall_no_writes env _).2.1,
      fun hfalse => absurd hu1 (by simp [hfalse]), ?_⟩
    · rcases h2 with h2 | ⟨_, h2⟩
      · exact ⟨_, by rw [h2, List.append_assoc]⟩
      · exact ⟨_, by rw [h2]⟩
    · intro _ htrue f hf hund
      rcases h2 with h2 | ⟨hfalse, _⟩
      · rw [h2, List.append_assoc, uninstall_true_trace env _ hu1] at hf
        rw [List.append_assoc, applyEvs_append, applyEvs_append] at hf
        rcases mem_applyEvs hf with hbase | hins
        · exact absurd hbase (by
            have : applyEvs
                (applyEvs env.fs0
                  ((trackedFiles env (pjoin env.dirs.packages m.name)).map
                    (removalEv env)))
                [Ev.rmtree (pjoin env.dirs.packages m.name)] =
              applyEv (applyEvs env.fs0
                  ((trackedFiles env (pjoin env.dirs.packages m.name)).map
                    (removalEv env)))
                (Ev.rmtree (pjoin env.dirs.packages m.name)) := rfl
            rw [this]
            exact not_mem_applyEv_rmtree hund)
        · rw [insertedPaths_append, (deps_no_writes env _).2.1,
            (installPhase_facts env m).2.1] at hins
          simp only [List.nil_append, List.mem_append, List.mem_singleton] at hins
          exact hins
      · rw [hfalse] at htrue
        cases htrue
  · have hfail : install_from_directory env directory expect =
        (false, (uninstall_directory env (pjoin env.dirs.packages m.name)).2) := by
      simp only [install_from_directory, hp]
      rw [if_neg (by simp [hxb]), if_neg (by simp [he, hu]), if_pos he,
        if_pos (by simp [Bool.not_eq_true] at hu1; simp [hu1])]
    refine ⟨⟨[], by rw [hfail]; simp⟩, (uninstall_no_writes env _).2.1,
      fun _ => hfail, fun htrue => absurd htrue hu1⟩

/-- C5: all declared dependencies are scanned first (`unmetDeps` filters
the satisfied ones in declaration order) and the queued ones are
attempted in declaration order, marked by `depInstall` events that come
before any write event of the parent; if any queued dependency install
fails, `install_from_directory` returns failure immediately — the trace
then consists only of the (possibly empty) upgrade-uninstall events and
the dependency attempts, so no parent file has been copied. -/
theorem C5_dep_failure_short_circuits (env : Env) (directory : String)
    (expect : Option (String × String)) (m : PackageManifest)
    (hp : env.parse directory = .ok m)
    (hx : expect = none ∨ expect = some (m.name, m.version))
    (hex : env.exists_ (pjoin env.dirs.packages m.name) = true →
      env.upgrade = true ∧
      (uninstall_directory env (pjoin env.dirs.packages m.name)).1 = true) :
    (installDeps env (unmetDeps env m)).2 =
      (attemptedDeps env (unmetDeps env m)).map
        (fun d => Ev.depInstall d.1 d.2) ∧
    (∃ uevs, (uevs = [] ∨
        uevs = (uninstall_directory env (pjoin env.dirs.packages m.name)).2) ∧
      writtenPaths uevs = [] ∧
      (∃ rest, (install_from_directory env directory expect).2 =
        uevs ++ (installDeps env (unmetDeps env m)).2 ++ rest) ∧
      ((installDeps env (unmetDeps env m)).1 = false →
        install_from_directory env directory expect =
          (false, uevs ++ (installDeps env (unmetDeps env m)).2))) ∧
    ((installDeps env (unmetDeps env m)).1 = false →
      (install_from_directory env directory expect).1 = false ∧
      writtenPaths (install_from_directory env directory expect).2 = []) := by
  have hxb : (expect.isSome && expect != some (m.name, m.version)) = false := by
    rcases hx with rfl | rfl <;> simp
  have main : ∃ uevs, (uevs = [] ∨
      uevs = (uninstall_directory env (pjoin env.dirs.packages m.name)).2) ∧
      writtenPaths uevs = [] ∧
      (∃ rest, (install_from_directory env directory expect).2 =
        uevs ++ (installDeps env (unmetDeps env m)).2 ++ rest) ∧
      ((installDeps env (unmetDeps env m)).1 = false →
        install_from_directory env directory expect =
          (false, uevs ++ (installDeps env (unmetDeps env m)).2)) := by
    by_cases he : env.exists_ (pjoin env.dirs.packages m.name) = true
    · obtain ⟨hu, hu1⟩ := hex he
      refine ⟨(uninstall_directory env (pjoin env.dirs.packages m.name)).2,
        Or.inr rfl, (uninstall_no_writes env _).1, ?_⟩
      have hpre : install_from_directory env directory expect =
          (let d := installDeps env (unmetDeps env m)
           if !d.1 then
             (false, (uninstall_directory env
               (pjoin env.dirs.packages m.name)).2 ++ d.2)
           else
             let py_modules :=
               m.python_dependencies.map (fun dep => dep.1 ++ dep.2)
             if !py_modules.isEmpty &&
                 env.pipInstall env.dirs.python_modules py_modules != 0 then
               (false, (uninstall_directory env
                 (pjoin env.dirs.packages m.name)).2 ++ d.2)
             else
               let w := installPhase env m
               let evs := (uninstall_directory env
                 (pjoin env.dirs.packages m.name)).2 ++ d.2 ++ w.2
               match m.postinstall with
               | none => (true, evs)
               | some post =>
                 match env.runHook
                     (pjoin (pjoin env.dirs.packages m.name) post) with
                 | .ok _ => (true, evs)
                 | .error _ => (false, evs)) := by
        simp only [install_from_directory, hp]
        rw [if_neg (by simp [hxb]), if_neg (by simp [he, hu]), if_pos he,
          if_neg (by simp [hu1])]
      by_cases hd : (installDeps env (unmetDeps env m)).1 = true
      · constructor
        · rw [hpre]
          simp only [if_neg (by simp [hd] :
            ¬(!(installDeps env (unmetDeps env m)).1) = true)]
          by_cases hpip : (!(m.python_dependencies.map
                (fun dep => dep.1 ++ dep.2)).isEmpty &&
              env.pipInstall env.dirs.python_modules
                (m.python_dependencies.map (fun dep => dep.1 ++ dep.2)) != 0)
              = true
          · rw [if_pos hpip]
            exact ⟨[], by simp⟩
          · rw [if_neg hpip]
            cases hpost : m.postinstall with
            | none => exact ⟨(installPhase env m).2, by simp [List.append_assoc]⟩
            | some post =>
              rcases hr : env.runHook
                  (pjoin (pjoin env.dirs.packages m.name) post) with e | u <;>
                exact ⟨(installPhase env m).2, by simp [hr, List.append_assoc]⟩
        · intro hdf
          rw [hdf] at hd
          cases hd
      · have hdf : (installDeps env (unmetDeps env m)).1 = false := by
          simpa using hd
        have heq : install_from_directory env directory expect =
            (false, (uninstall_directory env
              (pjoin env.dirs.packages m.name)).2
                ++ (installDeps env (unmetDeps env m)).2) := by
          rw [hpre]
          simp only [if_pos (by simp [hdf] :
            (!(installDeps env (unmetDeps env m)).1) = true)]
        exact ⟨⟨[], by rw [heq]; simp⟩, fun _ => heq⟩
    · refine ⟨[], Or.inl rfl, rfl, ?_⟩
      have hpre : install_from_directory env directory expect =
          (let d := installDeps env (unmetDeps env m)
           if !d.1 then (false, d.2)
           else
             let py_modules :=
               m.python_dependencies.map (fun dep => dep.1 ++ dep.2)
             if !py_modules.isEmpty &&
                 env.pipInstall env.dirs.python_modules py_modules != 0 then
               (false, d.2)
             else
               let w := installPhase env m
               let evs := d.2 ++ w.2
               match m.postinstall with
               | none => (true, evs)
               | some post =>
                 match env.runHook
                     (pjoin (pjoin env.dirs.packages m.name) post) with
                 | .ok _ => (true, evs)
                 | .error _ => (false, evs)) := by
        simp only [install_from_directory, hp]
        rw [if_neg (by simp [hxb]), if_neg (by simp [he]), if_neg he,
          if_neg (by simp)]
        simp
      by_cases hd : (installDeps env (unmetDeps env m)).1 = true
      · constructor
        · rw [hpre]
          simp only [if_neg (by simp [hd] :
            ¬(!(installDeps env (unmetDeps env m)).1) = true)]
          by_cases hpip : (!(m.python_dependencies.map
                (fun dep => dep.1 ++ dep.2)).isEmpty &&
              env.pipInstall env.dirs.python_modules
                (m.python_dependencies.map (fun dep => dep.1 ++ dep.2)) != 0)
              = true
          · rw [if_pos hpip]
            exact ⟨[], by simp⟩
          · rw [if_neg hpip]
            cases hpost : m.postinstall with
            | none => exact ⟨(installPhase env m).2, by simp⟩
            | some post =>
              rcases hr : env.runHook
                  (pjoin (pjoin env.dirs.packages m.name) post) with e | u <;>
                exact ⟨(installPhase env m).2, by simp [hr]⟩
        · intro hdf
          rw [hdf] at hd
          cases hd
      · have hdf : (installDeps env (unmetDeps env m)).1 = false := by
          simpa using hd
        have heq : install_from_directory env directory expect =
            (false, (installDeps env (unmetDeps env m)).2) := by
          rw [hpre]
          simp only [if_pos (by simp [hdf] :
            (!(installDeps env (unmetDeps env m)).1) = true)]
        exact ⟨⟨[], by rw [heq]; simp⟩, fun _ => by rw [heq]; simp⟩
  obtain ⟨uevs, huevs, huw, hrest, hfail⟩ := main
  refine ⟨installDeps_trace env _, ⟨uevs, huevs, huw, hrest, hfail⟩, fun hdf => ?_⟩
  have heq := hfail hdf
  rw [heq]
  refine ⟨rfl, ?_⟩
  rw [writtenPaths_append, huw]
  have hdw : writtenPaths (installDeps env (unmetDeps env m)).2 = [] :=
    (deps_no_writes env _).1
  rw [hdw]
  rfl

theorem tracking_mem_phase (env : Env) (m : PackageManifest) :
    Ev.writeTrackingList (pjoin (pjoin env.dirs.packages m.name) trackingFileName)
      (serializeLines (installPhase env m).1) ∈ (installPhase env m).2 := by
  rw [installPhase_trace_eq]
  exact List.mem_append_right _ (List.mem_singleton_self _)

/-- C7: when a postinstall hook is declared and raises,
`install_from_directory` returns failure, yet everything written before
the hook ran stays: the trace ends with the full write phase (copies,
launchers, tracking list), the tracking-list write is in the trace, and
every path the write phase created — copied files, launchers and the
persisted tracking list — is present in the final filesystem (no
rollback). -/
theorem C7_postinstall_failure_keeps_files (env : Env) (directory : String)
    (expect : Option (String × String)) (m : PackageManifest)
    (post e : String)
    (hp : env.parse directory = .ok m)
    (hx : expect = none ∨ expect = some (m.name, m.version))
    (hex : env.exists_ (pjoin env.dirs.packages m.name) = true →
      env.upgrade = true ∧
      (uninstall_directory env (pjoin env.dirs.packages m.name)).1 = true)
    (hd : (installDeps env (unmetDeps env m)).1 = true)
    (hpip : (!(m.python_dependencies.map (fun dep => dep.1 ++ dep.2)).isEmpty &&
        env.pipInstall env.dirs.python_modules
          (m.python_dependencies.map (fun dep => dep.1 ++ dep.2)) != 0) = false)
    (hpost : m.postinstall = some post)
    (hhook : env.runHook (pjoin (pjoin env.dirs.packages m.name) post) =
      .error e) :
    (install_from_directory env directory expect).1 = false ∧
    Ev.writeTrackingList (pjoin (pjoin env.dirs.packages m.name) trackingFileName)
        (serializeLines (installPhase env m).1)
      ∈ (install_from_directory env directory expect).2 ∧
    ∀ f ∈ insertedPaths (installPhase env m).2,
      f ∈ applyEvs env.fs0 (install_from_directory env directory expect).2 := by
  have hxb : (expect.isSome && expect != some (m.name, m.version)) = false := by
    rcases hx with rfl | rfl <;> simp
  have heq : ∃ uevs, (uevs = [] ∨
      uevs = (uninstall_directory env (pjoin env.dirs.packages m.name)).2) ∧
      install_from_directory env directory expect =
        (false, uevs ++ ((installDeps env (unmetDeps env m)).2
          ++ (installPhase env m).2)) := by
    by_cases he : env.exists_ (pjoin env.dirs.packages m.name) = true
    · obtain ⟨hu, hu1⟩ := hex he
      refine ⟨_, Or.inr rfl, ?_⟩
      simp only [install_from_directory, hp]
      rw [if_neg (by simp [hxb]), if_neg (by simp [he, hu]), if_pos he,
        if_neg (by simp [hu1]), if_neg (by simp [hd]), if_neg (by simp [hpip]),
        hpost]
      simp [hhook, List.append_assoc]
    · refine ⟨[], Or.inl rfl, ?_⟩
      simp only [install_from_directory, hp]
      rw [if_neg (by simp [hxb]), if_neg (by simp [he]), if_neg he,
        if_neg (by simp), if_neg (by simp [hd]), if_neg (by simp [hpip]),
        hpost]
      simp [hhook]
  obtain ⟨uevs, huevs, heq⟩ := heq
  have hkd : ∀ ev ∈ (installDeps env (unmetDeps env m)).2
      ++ (installPhase env m).2, ev.keepsFiles = true := by
    intro ev hev
    rcases List.mem_append.1 hev with hev | hev
    · exact (deps_no_writes env _).2.2.1 ev hev
    · exact (installPhase_facts env m).2.2.1 ev hev
  refine ⟨by rw [heq], ?_, ?_⟩
  · rw [heq]
    exact List.mem_append_right _
      (List.mem_append_right _ (tracking_mem_phase env m))
  · intro f hf
    rw [heq]
    show f ∈ applyEvs env.fs0 (uevs ++ _)
    rw [applyEvs_append]
    refine mem_applyEvs_of_inserted hkd ?_
    rw [insertedPaths_append]
    exact List.mem_append_right _ hf

/-- C8: `uninstall_directory` returns `False` with an empty trace (no
file or directory removed) on a manifest parse failure; otherwise it
returns `True` with a trace that attempts removal of every tracked file
in order — a per-file removal failure becomes a logged `removeFailed`
event without aborting the loop — followed by `rmtree` of the
directory; an absent tracking file means zero tracked files; and after
the call nothing under the directory remains in the filesystem. -/
theorem C8_uninstall_error_handling (env : Env) (dir : String) :
    (∀ e, env.parse dir = .error e → uninstall_directory env dir = (false, [])) ∧
    ∀ m, env.parse dir = .ok m →
      uninstall_directory env dir =
        (true, (trackedFiles env dir).map (removalEv env) ++ [Ev.rmtree dir]) ∧
      (env.readFile (pjoin dir trackingFileName) = none →
        trackedFiles env dir = []) ∧
      ∀ f, isUnder dir f = true →
        f ∉ applyEvs env.fs0 (uninstall_directory env dir).2 := by
  constructor
  · intro e he
    simp [uninstall_directory, he]
  · intro m hp
    have heq : uninstall_directory env dir =
        (true, (trackedFiles env dir).map (removalEv env) ++ [Ev.rmtree dir]) := by
      simp [uninstall_directory, hp]
    refine ⟨heq, fun hnone => by simp [trackedFiles, hnone], ?_⟩
    intro f hund
    rw [heq]
    show f ∉ applyEvs env.fs0 (_ ++ [Ev.rmtree dir])
    rw [applyEvs_append]
    exact not_mem_applyEv_rmtree hund

/-- Witness for C8 at concrete inputs: uninstalling a non-package
directory fails with no events; uninstalling `/pkgs/foo` under
`upgradeEnv` removes the two tracked files, removes the directory tree,
reports success, and leaves nothing under `/pkgs/foo`. -/
theorem C8_uninstall_error_handling_witness :
    uninstall_directory upgradeEnv "/elsewhere" = (false, []) ∧
    uninstall_directory upgradeEnv "/pkgs/foo" =
      (true, [Ev.remove "/pkgs/foo/old.py", Ev.remove "/bin/oldctl",
        Ev.rmtree "/pkgs/foo"]) ∧
    trackedFiles { upgradeEnv with readFile := fun _ => none } "/pkgs/foo" = [] ∧
    "/pkgs/foo/old.py" ∉
      applyEvs upgradeEnv.fs0 (uninstall_directory upgradeEnv "/pkgs/foo").2 := by
  have h1 := (C8_uninstall_error_handling upgradeEnv "/elsewhere").1
    "NotAPackageDirectory" rfl
  have h2 := (C8_uninstall_error_handling upgradeEnv "/pkgs/foo").2
    fooOldManifest rfl
  have h3 := (C8_uninstall_error_handling
    { upgradeEnv with readFile := fun _ => none } "/pkgs/foo").2
    fooOldManifest rfl
  refine ⟨h1, ?_, h3.2.1 rfl, h2.2.2 "/pkgs/foo/old.py" (by decide)⟩
  rw [h2.1]
  rfl

/-- C9: temporary resources are removed on every exit path.
`install_from_archive` has `Ev.rmtree` of its scratch directory in its
trace whatever the extraction or the delegated directory-install does
(return, fail, or raise); and after `install_from_registry` has reached
the download step, its named temporary file is never present in the
final filesystem, whatever the delegated archive install's outcome. -/
theorem C9_scoped_cleanup (env : Env)
    (di ai : String → Option (String × String) → Except String Bool × List Ev)
    (archive : String) (expect : Option (String × String))
    (name selector : String) (info : RegInfo)
    (hno : (env.loadPackage name (some selector) && !env.upgrade) = false)
    (hf : env.regFind name selector = .ok info)
    (hn : (info.name != name) = false) :
    Ev.rmtree (env.mkdtempName archive) ∈
      (install_from_archive env di archive expect).2 ∧
    env.mkstempName (env.regDownloadName info.name info.version) ∉
      applyEvs env.fs0 (install_from_registry env ai name selector).2 := by
  constructor
  · cases hex : env.extract archive (env.mkdtempName archive) with
    | error e =>
      simp only [install_from_archive, hex]
      simp
    | ok extracted =>
      simp only [install_from_archive, hex]
      simp
  · simp only [install_from_registry]
    rw [if_neg (by simp [hno]), hf]
    simp only [if_neg (by simp [hn] : ¬(info.name != name) = true)]
    cases hdl : env.downloadTo
        (env.mkstempName (env.regDownloadName info.name info.version)) with
    | error e =>
      simp only
      rw [if_pos (show env.mkstempName (env.regDownloadName info.name info.version)
          ∈ applyEvs env.fs0 [Ev.mkstemp (env.mkstempName
              (env.regDownloadName info.name info.version))] from
          Finset.mem_insert_self _ _)]
      show _ ∉ applyEvs env.fs0 (_ ++ [Ev.remove _])
      rw [applyEvs_append]
      exact Finset.not_mem_erase _ _
    | ok u =>
      simp only
      by_cases hmem : env.mkstempName (env.regDownloadName info.name info.version)
          ∈ applyEvs env.fs0 (Ev.mkstemp (env.mkstempName
            (env.regDownloadName info.name info.version))
              :: (ai (env.mkstempName (env.regDownloadName info.name info.version))
                (some (name, info.version))).2)
      · rw [if_pos hmem]
        show _ ∉ applyEvs env.fs0 (_ ++ [Ev.remove _])
        rw [applyEvs_append]
        exact Finset.not_mem_erase _ _
      · rw [if_neg hmem]
        show _ ∉ applyEvs env.fs0 (_ ++ [])
        rw [List.append_nil]
        exact hmem

/-- Witness for C3 at a concrete input: upgrading `foo` from `0.9.0` to
`1.0.0` under `upgradeEnv`; the copied `package.json` found under the
target directory after the install is one of the new version's files. -/
theorem C3_upgrade_uninstalls_first_witness :
    "/pkgs/foo/package.json" ∈ (installPhase upgradeEnv fooManifest).1 ∨
    "/pkgs/foo/package.json" =
      pjoin (pjoin upgradeEnv.dirs.packages fooManifest.name) trackingFileName :=
  (C3_upgrade_uninstalls_first upgradeEnv "/src/foo" none fooManifest rfl
      (Or.inl rfl) (by decide) rfl).2.2.2 (by decide) (by decide)
      "/pkgs/foo/package.json" (by decide) (by decide)

/-- Witness for C5 at a concrete input: under `depFailEnv` the single
queued dependency `dep@*` is attempted (in declaration order) and fails,
so the install fails with no copied or generated file. -/
theorem C5_dep_failure_short_circuits_witness :
    (installDeps depFailEnv (unmetDeps depFailEnv fooManifest)).2 =
      [Ev.depInstall "dep" "*"] ∧
    (install_from_directory depFailEnv "/src/foo" none).1 = false ∧
    writtenPaths (install_from_directory depFailEnv "/src/foo" none).2 = [] := by
  have h := C5_dep_failure_short_circuits depFailEnv "/src/foo" none fooManifest
    rfl (Or.inl rfl) (fun hee => absurd hee (by decide))
  exact ⟨h.1.trans (by decide), (h.2.2 (by decide)).1, (h.2.2 (by decide)).2⟩

/-- Witness for C7 at a concrete input: under `hookFailEnv` the install
fails because the hook raises, yet the copied `main.py` is present in
the final filesystem. -/
theorem C7_postinstall_failure_keeps_files_witness :
    (install_from_directory hookFailEnv "/src/foo" none).1 = false ∧
    "/pkgs/foo/main.py" ∈
      applyEvs hookFailEnv.fs0
        (install_from_directory hookFailEnv "/src/foo" none).2 := by
  have h := C7_postinstall_failure_keeps_files hookFailEnv "/src/foo" none
    postFooManifest "setup.py" "boom" rfl (Or.inl rfl)
    (fun hee => absurd hee (by decide)) (by decide) (by decide) rfl rfl
  exact ⟨h.1, h.2.2 "/pkgs/foo/main.py" (by decide)⟩

/-- Witness for C9 at a concrete input: the scratch directory
`/tmp/unpack` is removed by `install_from_archive`, and the downloaded
temporary file `/tmp/dl_foo-1.0.0.tgz` is absent from the filesystem
after `install_from_registry`. -/
theorem C9_scoped_cleanup_witness :
    Ev.rmtree "/tmp/unpack" ∈
      (install_from_archive sampleEnv (dirInstallOf sampleEnv) "foo.tgz" none).2 ∧
    "/tmp/dl_foo-1.0.0.tgz" ∉
      applyEvs sampleEnv.fs0
        (install_from_registry sampleEnv (dirInstallOf sampleEnv) "foo" "1.x").2 := by
  have h := C9_scoped_cleanup sampleEnv (dirInstallOf sampleEnv)
    (dirInstallOf sampleEnv) "foo.tgz" none "foo" "1.x"
    { name := "foo", version := "1.0.0" } (by decide) rfl (by decide)
  exact ⟨h.1, h.2⟩
